import Mathlib

/-!
Verification development for the `airq` repository (`src/app.py`), a single
Streamlit script that uploads a CSV of air-quality features, loads a serialized
model, predicts AQI values, and offers the augmented table as a CSV download.

The embedding below models the script's data flow:

* `Table` is a pandas `DataFrame` restricted to the shapes the script uses:
  named columns over row-major cells.  Cells are kept as their CSV field text
  (a `String`); for integer-valued data — the only kind the specification's
  scenarios exercise — pandas's parse/render cycle preserves the field text
  exactly, so the string-level model is observationally faithful.
* `Table.dropColumn` models `DataFrame.drop(columns=[c], errors='ignore')`
  (line 28 of `app.py`), `Table.setColumn` models the column assignment
  `data["Predicted_AQI"] = predictions` (line 30), which overwrites an
  existing column in place and otherwise appends a new last column, and
  raises when the value list's length differs from the row count.
* `parseCsv` / `toCsvString` model `pd.read_csv` / `DataFrame.to_csv(index=False)`
  on such tables, built from explicit character-level split/join functions so
  that round-trip properties can be proved.
* `runApp` models one run of the script body (lines 13–37), distinguishing
  exceptions that escape the script (`Outcome.crash`) from errors the script
  itself catches and renders inline (`st.error`), since only the
  `joblib.load` call and the prediction block are guarded by `try`/`except`.
-/

/-! ### Character-level split and join -/

/-- Join a list of character groups with a separator character, the core of
`str.join` / CSV line formation. -/
def joinSep (sep : Char) : List (List Char) → List Char
  | [] => []
  | [g] => g
  | g :: g' :: gs => g ++ sep :: joinSep sep (g' :: gs)

/-- Split a character list at every occurrence of the separator.  Always
returns at least one (possibly empty) group. -/
def splitSep (sep : Char) : List Char → List (List Char)
  | [] => [[]]
  | c :: cs =>
    if c = sep then [] :: splitSep sep cs
    else (splitSep sep cs).modifyHead (c :: ·)

theorem splitSep_ne_nil (sep : Char) (cs : List Char) : splitSep sep cs ≠ [] := by
  induction cs with
  | nil => simp [splitSep]
  | cons c cs ih =>
    simp only [splitSep]
    by_cases h : c = sep
    · simp [h]
    · rw [if_neg h]
      cases hs : splitSep sep cs with
      | nil => exact absurd hs ih
      | cons g gs => simp

/-- Rejoining the groups produced by a split restores the original list. -/
theorem joinSep_splitSep (sep : Char) (cs : List Char) :
    joinSep sep (splitSep sep cs) = cs := by
  induction cs with
  | nil => simp [splitSep, joinSep]
  | cons c cs ih =>
    simp only [splitSep]
    cases hs : splitSep sep cs with
    | nil => exact absurd hs (splitSep_ne_nil sep cs)
    | cons g gs =>
      rw [hs] at ih
      by_cases h : c = sep
      · subst h
        simp only [if_pos rfl]
        cases gs with
        | nil => simpa [joinSep] using ih
        | cons g' gs' => simpa [joinSep] using ih
      · simp only [if_neg h, List.modifyHead_cons]
        cases gs with
        | nil => simpa [joinSep] using ih
        | cons g' gs' => simpa [joinSep] using ih

/-- Splitting a separator-free list yields a single group. -/
theorem splitSep_of_not_mem (sep : Char) (cs : List Char) (h : sep ∉ cs) :
    splitSep sep cs = [cs] := by
  induction cs with
  | nil => simp [splitSep]
  | cons c cs ih =>
    simp only [List.mem_cons, not_or] at h
    have hcs : ¬c = sep := fun hc => h.1 hc.symm
    simp only [splitSep, if_neg hcs, ih h.2, List.modifyHead_cons]

/-- Splitting consumes a leading separator-free group up to the first
separator. -/
theorem splitSep_append (sep : Char) (g rest : List Char) (h : sep ∉ g) :
    splitSep sep (g ++ sep :: rest) = g :: splitSep sep rest := by
  induction g with
  | nil => simp [splitSep]
  | cons c g ih =>
    simp only [List.mem_cons, not_or] at h
    have hcs : ¬c = sep := fun hc => h.1 hc.symm
    show splitSep sep (c :: (g ++ sep :: rest)) = (c :: g) :: splitSep sep rest
    simp only [splitSep, if_neg hcs, ih h.2, List.modifyHead_cons]

/-- The groups of a split never contain the separator. -/
theorem not_mem_of_mem_splitSep (sep : Char) (cs : List Char) (g : List Char)
    (hg : g ∈ splitSep sep cs) : sep ∉ g := by
  induction cs generalizing g with
  | nil =>
    simp only [splitSep, List.mem_singleton] at hg
    subst hg; simp
  | cons c cs ih =>
    simp only [splitSep] at hg
    by_cases h : c = sep
    · rw [if_pos h] at hg
      rcases List.mem_cons.mp hg with h1 | h1
      · subst h1; simp
      · exact ih g h1
    · rw [if_neg h] at hg
      cases hs : splitSep sep cs with
      | nil => exact absurd hs (splitSep_ne_nil sep cs)
      | cons g' gs' =>
        rw [hs, List.modifyHead_cons] at hg
        rcases List.mem_cons.mp hg with h1 | h1
        · subst h1
          intro hm
          rcases List.mem_cons.mp hm with h2 | h2
          · exact h h2.symm
          · exact ih g' (hs ▸ List.mem_cons_self g' gs') h2
        · exact ih g (hs ▸ List.mem_cons.mpr (Or.inr h1))

/-- Every character of a group of a split occurs in the split list. -/
theorem mem_of_mem_splitSep (sep : Char) (cs : List Char) (g : List Char)
    (hg : g ∈ splitSep sep cs) (x : Char) (hx : x ∈ g) : x ∈ cs := by
  induction cs generalizing g with
  | nil =>
    simp only [splitSep, List.mem_singleton] at hg
    subst hg; simp at hx
  | cons c cs ih =>
    simp only [splitSep] at hg
    by_cases h : c = sep
    · rw [if_pos h] at hg
      rcases List.mem_cons.mp hg with h1 | h1
      · subst h1; simp at hx
      · exact List.mem_cons.mpr (Or.inr (ih g h1 hx))
    · rw [if_neg h] at hg
      cases hs : splitSep sep cs with
      | nil => exact absurd hs (splitSep_ne_nil sep cs)
      | cons g' gs' =>
        rw [hs, List.modifyHead_cons] at hg
        rcases List.mem_cons.mp hg with h1 | h1
        · subst h1
          rcases List.mem_cons.mp hx with h2 | h2
          · exact List.mem_cons.mpr (Or.inl h2)
          · exact List.mem_cons.mpr
              (Or.inr (ih g' (hs ▸ List.mem_cons_self g' gs') h2))
        · exact List.mem_cons.mpr (Or.inr (ih g (hs ▸ List.mem_cons.mpr (Or.inr h1)) hx))

/-- A character distinct from the separator and absent from every group is
absent from the join. -/
theorem not_mem_joinSep (sep x : Char) (hx : x ≠ sep) (fs : List (List Char))
    (hf : ∀ f ∈ fs, x ∉ f) : x ∉ joinSep sep fs := by
  induction fs with
  | nil => simp [joinSep]
  | cons g gs ih =>
    cases gs with
    | nil => simpa [joinSep] using hf g (List.mem_cons_self g [])
    | cons g' gs' =>
      simp only [joinSep, List.mem_append, List.mem_cons, not_or]
      refine ⟨hf g (List.mem_cons_self _ _), hx, ?_⟩
      exact ih (fun f hm => hf f (List.mem_cons.mpr (Or.inr hm)))

/-- The join of groups is nonempty as soon as one group is nonempty. -/
theorem joinSep_ne_nil (sep : Char) (fs : List (List Char)) (g : List Char)
    (hg : g ∈ fs) (hne : g ≠ []) : joinSep sep fs ≠ [] := by
  induction fs with
  | nil => simp at hg
  | cons f fs ih =>
    cases fs with
    | nil =>
      simp only [List.mem_singleton] at hg
      subst hg; simpa [joinSep] using hne
    | cons f' fs' =>
      simp only [joinSep]
      intro hcontra
      rcases List.append_eq_nil.mp hcontra with ⟨_, h2⟩
      exact List.cons_ne_nil _ _ h2

/-- Splitting the join of nonempty-list of separator-free groups recovers the
groups. -/
theorem splitSep_joinSep (sep : Char) (fs : List (List Char)) (hne : fs ≠ [])
    (hf : ∀ f ∈ fs, sep ∉ f) : splitSep sep (joinSep sep fs) = fs := by
  induction fs with
  | nil => exact absurd rfl hne
  | cons g gs ih =>
    cases gs with
    | nil =>
      simp only [joinSep]
      exact splitSep_of_not_mem sep g (hf g (List.mem_cons_self g []))
    | cons g' gs' =>
      simp only [joinSep]
      rw [splitSep_append sep g _ (hf g (List.mem_cons_self _ _))]
      rw [ih (by simp) (fun f hm => hf f (List.mem_cons.mpr (Or.inr hm)))]


/-! ### Decimal rendering of predictions

Predictions are numeric; pandas renders an integer prediction in plain
decimal when the result column is written to CSV.  The rendering is spelled
out character by character so that its output can be shown separator-free. -/

/-- The decimal digit characters. -/
def digitChars : List Char := ['0', '1', '2', '3', '4', '5', '6', '7', '8', '9']

/-- The character of one decimal digit. -/
def digitChar (d : Nat) : Char := digitChars.getD d '0'

/-- Digits of `n`, most significant first, by structural recursion on a fuel
argument (`[]` when the fuel or the number is zero). -/
def natDigitsAux (fuel n : Nat) : List Char :=
  match fuel with
  | 0 => []
  | f + 1 => if n = 0 then [] else natDigitsAux f (n / 10) ++ [digitChar (n % 10)]

/-- Decimal digits of a natural number (`n` itself is always enough fuel). -/
def natDigits (n : Nat) : List Char := if n = 0 then ['0'] else natDigitsAux n n

/-- Character rendering of an integer, with a leading minus sign when
negative. -/
def intChars (i : Int) : List Char :=
  if i < 0 then '-' :: natDigits i.natAbs else natDigits i.natAbs

/-- String rendering of an integer cell value. -/
def intStr (i : Int) : String := String.mk (intChars i)

theorem digitChar_ne (d : Nat) : digitChar d ≠ ',' ∧ digitChar d ≠ '\n' := by
  by_cases h : d < 10
  · unfold digitChar digitChars
    interval_cases d <;> exact ⟨by decide, by decide⟩
  · unfold digitChar
    rw [List.getD_eq_default _ _ (by simpa [digitChars] using Nat.le_of_not_lt h)]
    exact ⟨by decide, by decide⟩

theorem natDigitsAux_sep (fuel n : Nat) :
    ∀ c ∈ natDigitsAux fuel n, c ≠ ',' ∧ c ≠ '\n' := by
  induction fuel generalizing n with
  | zero => intro c hc; simp [natDigitsAux] at hc
  | succ f ih =>
    intro c hc
    simp only [natDigitsAux] at hc
    by_cases h : n = 0
    · simp [h] at hc
    · rw [if_neg h] at hc
      rcases List.mem_append.mp hc with h1 | h1
      · exact ih (n / 10) c h1
      · rw [List.mem_singleton.mp h1]
        exact digitChar_ne _

theorem intChars_sep (i : Int) : ∀ c ∈ intChars i, c ≠ ',' ∧ c ≠ '\n' := by
  intro c hc
  unfold intChars natDigits at hc
  by_cases hi : i < 0 <;> by_cases hz : i.natAbs = 0 <;>
    simp only [if_pos, if_neg, hi, hz, ite_true, ite_false] at hc
  · rcases List.mem_cons.mp hc with h1 | h1
    · subst h1; exact ⟨by decide, by decide⟩
    · simp [hz] at h1
      subst h1; exact ⟨by decide, by decide⟩
  · rcases List.mem_cons.mp hc with h1 | h1
    · subst h1; exact ⟨by decide, by decide⟩
    · exact natDigitsAux_sep _ _ c h1
  · simp only [List.mem_singleton] at hc
    subst hc; exact ⟨by decide, by decide⟩
  · exact natDigitsAux_sep _ _ c hc

theorem natDigitsAux_ne_nil (n : Nat) (h : n ≠ 0) : natDigitsAux n n ≠ [] := by
  cases n with
  | zero => exact absurd rfl h
  | succ m =>
    simp only [natDigitsAux, if_neg h]
    simp

theorem intChars_ne_nil (i : Int) : intChars i ≠ [] := by
  unfold intChars natDigits
  by_cases hi : i < 0 <;> by_cases hz : i.natAbs = 0 <;>
    simp only [hi, hz, ite_true, ite_false]
  · simp
  · simp
  · simp
  · exact natDigitsAux_ne_nil _ hz

/-! ### Tables

A pandas `DataFrame` as `app.py` uses one: named columns over row-major
cells, each cell holding its CSV field text. -/

structure Table where
  cols : List String
  rows : List (List String)

deriving instance DecidableEq, Repr for Table

/-- A table is well-formed when every row has one cell per column, which
`pd.read_csv` guarantees for the tables the script builds. -/
def Table.WF (t : Table) : Prop := ∀ r ∈ t.rows, r.length = t.cols.length

instance (t : Table) : Decidable t.WF := by
  unfold Table.WF
  infer_instance

/-- Models `data.drop(columns=[c], errors='ignore')` (line 28 of `app.py`):
remove every column labelled `c`, silently doing nothing when the label is
absent. -/
def Table.dropColumn (t : Table) (c : String) : Table :=
  { cols := t.cols.filter (fun n => decide (n ≠ c)),
    rows := t.rows.map
      (fun r => ((t.cols.zip r).filter (fun q => decide (q.1 ≠ c))).map Prod.snd) }

/-- Models the pandas column assignment `data[c] = vals` (line 30 of
`app.py`): overwrite an existing column in place, keeping its position;
append a new last column otherwise; raise (here: return `.error`) when the
number of values differs from the number of rows. -/
def Table.setColumn (t : Table) (c : String) (vals : List String) : Except String Table :=
  if vals.length = t.rows.length then
    if c ∈ t.cols then
      .ok { cols := t.cols,
            rows := t.rows.zipWith
              (fun r v => (t.cols.zip r).map (fun q => if q.1 = c then v else q.2)) vals }
    else
      .ok { cols := t.cols ++ [c],
            rows := t.rows.zipWith (fun r v => r ++ [v]) vals }
  else
    .error "Length of values does not match length of index"

/-- The values of the (first) column labelled `c`, row by row. -/
def Table.column (t : Table) (c : String) : List String :=
  t.rows.map (fun r => ((t.cols.zip r).lookup c).getD "")

/-! ### CSV serialization and parsing -/

/-- One CSV line: the comma-join of the field texts. -/
def rowChars (cells : List String) : List Char := joinSep ',' (cells.map String.data)

/-- Terminate every line with a newline, as `DataFrame.to_csv` does. -/
def renderLines (ls : List (List Char)) : List Char :=
  ls.foldr (fun l acc => l ++ '\n' :: acc) []

/-- Models `data.to_csv(index=False)` (line 34 of `app.py`): a header line
with the column labels in order, then one line per row, no index column. -/
def toCsvString (t : Table) : String :=
  String.mk (renderLines (rowChars t.cols :: t.rows.map rowChars))

/-- Models `data.to_csv(index=False).encode('utf-8')` (line 34 of `app.py`),
the byte stream handed to the download button. -/
def exportCsv (t : Table) : ByteArray := (toCsvString t).toUTF8

/-- The nonblank lines of a character stream (pandas skips blank lines). -/
def parseLines (cs : List Char) : List (List Char) :=
  (splitSep '\n' cs).filter (fun l => decide (l ≠ []))

/-- Parse data lines against a header of `nc` columns; `none` marks a
malformed line. -/
def parseRows (nc : Nat) : List (List Char) → Option (List (List String))
  | [] => some []
  | line :: rest =>
    let fields := splitSep ',' line
    if fields.length = nc then
      match parseRows nc rest with
      | some rs => some ((fields.map String.mk) :: rs)
      | none => none
    else none

/-- Modelled from the spec: `pd.read_csv` on the uploaded stream — "Columns
are inferred from the header row"; "Fails with `ParseError` if the byte
stream is not well-formed delimited text".  The first nonblank line is the
header; a data line whose field count differs from the header's is not
well-formed delimited text, and an empty stream has no header. -/
def parseCsv (s : String) : Except String Table :=
  match parseLines s.data with
  | [] => .error "No columns to parse from file"
  | header :: rest =>
    let cols := (splitSep ',' header).map String.mk
    match parseRows cols.length rest with
    | some rows => .ok { cols := cols, rows := rows }
    | none => .error "Error tokenizing data"

/-! ### The script body -/

/-- The deserialized model object: opaque, exposing the single capability
`predict(feature_table) -> numeric_sequence`, which may raise (`.error`). -/
def Predictor : Type := Table → Except String (List Int)

/-- The filesystem state at the fixed artifact path `air_quality_model.pkl`. -/
inductive ModelArtifact where
  | absent
  | corrupt (msg : String)
  | valid (p : Predictor)

/-- Failures of `joblib.load`. -/
inductive LoadFailure where
  | fileNotFound
  | deserialization (msg : String)

/-- Modelled from the spec: `joblib.load` on the fixed artifact path —
"a deserialized Predictor, or fails with `ModelNotFoundError` if the
artifact is absent, or `ModelCorruptError` if deserialization fails". -/
def loadModel : ModelArtifact → Except LoadFailure Predictor
  | .absent => .error .fileNotFound
  | .corrupt m => .error (.deserialization m)
  | .valid p => .ok p

/-- The observable result of one run of the script body.  `crash` is an
exception that escapes the script (no `try`/`except` of the script catches
it); `halted` is `st.error` followed by `st.stop`; `predictionFailed` is the
`st.error` of the prediction block's `except` arm; `predicted` carries the
rendered ResultTable and the CSV text prepared for download. -/
inductive Outcome where
  | noUpload
  | crash (msg : String)
  | halted (msg : String)
  | awaitingAction (preview : Table)
  | predictionFailed (msg : String)
  | predicted (result : Table) (csv : String)

deriving instance DecidableEq for Outcome

/-- The prediction block (lines 26–37 of `app.py`): drop the ground-truth
`AQI` column if present, call `model.predict` once on the remaining
features, assign the output to column `Predicted_AQI` of the original
table, and prepare the CSV download; any exception in the block is caught
and rendered as `st.error(f"Prediction failed: {e}")`. -/
def runPredict (data : Table) (model : Predictor) : Outcome :=
  match model (data.dropColumn "AQI") with
  | .error e => .predictionFailed ("Prediction failed: " ++ e)
  | .ok preds =>
    match data.setColumn "Predicted_AQI" (preds.map intStr) with
    | .error e => .predictionFailed ("Prediction failed: " ++ e)
    | .ok result => .predicted result (toCsvString result)

/-- One run of the script body (lines 13–37 of `app.py`).  `pd.read_csv` is
outside every `try`, so a parse failure escapes the script; around
`joblib.load` only `FileNotFoundError` is caught (with `st.error` and
`st.stop`), so a deserialization failure also escapes; the prediction block
runs only once the button is pressed and catches all its exceptions. -/
def runApp (upload : Option String) (fs : ModelArtifact) (pressed : Bool) : Outcome :=
  match upload with
  | none => .noUpload
  | some s =>
    match parseCsv s with
    | .error e => .crash e
    | .ok data =>
      match loadModel fs with
      | .error .fileNotFound =>
        .halted "Model file not found! Please add 'air_quality_model.pkl'."
      | .error (.deserialization m) => .crash m
      | .ok model =>
        if pressed then runPredict data model else .awaitingAction data

/-! ### Concrete predictors and inputs for the specification's scenarios -/

/-- Numeric reading of a digit-string cell, used by the scenario predictor. -/
def cellInt (s : String) : Int :=
  Int.ofNat (s.data.foldl (fun a c => 10 * a + (c.toNat - 48)) 0)

/-- The specification's scenario predictor `predict(rows) = PM2.5 + PM10`,
realized as the sum of all feature cells of each row (the features being
exactly `PM2.5` and `PM10` after the `AQI` column is dropped). -/
def sumPredictor : Predictor := fun t => .ok (t.rows.map (fun r => (r.map cellInt).sum))

/-- A predictor that always raises, for exercising the failure paths. -/
def failingPredictor (msg : String) : Predictor := fun _ => .error msg

/-- The scenario upload `"AQI,PM2.5,PM10\n100,30,40\n200,50,60\n"`. -/
def scenarioCsv : String := "AQI,PM2.5,PM10\n100,30,40\n200,50,60\n"

/-- The FeatureTable parsed from `scenarioCsv`. -/
def scenarioTable : Table :=
  { cols := ["AQI", "PM2.5", "PM10"],
    rows := [["100", "30", "40"], ["200", "50", "60"]] }

/-- The ResultTable of the scenario. -/
def scenarioResult : Table :=
  { cols := ["AQI", "PM2.5", "PM10", "Predicted_AQI"],
    rows := [["100", "30", "40", "70"], ["200", "50", "60", "110"]] }

/-! ### Helper lemmas about zipped rows -/

theorem zip_map_value (cols r : List String) (f : String × String → String)
    (h : cols.length = r.length) :
    cols.zip ((cols.zip r).map f) = (cols.zip r).map (fun q => (q.1, f q)) := by
  induction cols generalizing r with
  | nil => simp
  | cons c cols ih =>
    cases r with
    | nil => simp at h
    | cons x r =>
      have h' : cols.length = r.length := by simpa using h
      simp [List.zip_cons_cons, ih r h']

theorem overwrite_filter_ne (c v : String) (ps : List (String × String)) :
    ((ps.map (fun q => (q.1, if q.1 = c then v else q.2))).filter
        (fun q => decide (q.1 ≠ c))).map Prod.snd =
      (ps.filter (fun q => decide (q.1 ≠ c))).map Prod.snd := by
  induction ps with
  | nil => rfl
  | cons q ps ih =>
    by_cases h : q.1 = c
    · simp only [List.map_cons, List.filter_cons, h, if_pos rfl, decide_not]
      simpa [h] using ih
    · simp only [List.map_cons, List.filter_cons, if_neg h, decide_not]
      simpa [h] using ih

theorem lookup_map_overwrite (c v k : String) (ps : List (String × String)) :
    List.lookup k (ps.map (fun q => (q.1, if q.1 = c then v else q.2))) =
      if k = c then (List.lookup k ps).map (fun _ => v) else List.lookup k ps := by
  induction ps with
  | nil => by_cases h : k = c <;> simp [List.lookup, h]
  | cons q ps ih =>
    obtain ⟨a, b⟩ := q
    simp only [List.map_cons, List.lookup]
    by_cases hk : k = a
    · rw [show (k == a) = true from beq_iff_eq.mpr hk]
      subst hk
      by_cases hc : k = c
      · simp [hc]
      · simp [hc]
    · rw [show (k == a) = false from beq_eq_false_iff_ne.mpr hk]
      exact ih

theorem lookup_isSome_of_mem (k : String) (cols r : List String)
    (hk : k ∈ cols) (h : cols.length = r.length) :
    ∃ x, List.lookup k (cols.zip r) = some x := by
  induction cols generalizing r with
  | nil => simp at hk
  | cons c cols ih =>
    cases r with
    | nil => simp at h
    | cons y r =>
      by_cases hkc : k = c
      · exact ⟨y, by simp [List.zip_cons_cons, List.lookup, hkc]⟩
      · have h' : cols.length = r.length := by simpa using h
        have hk' : k ∈ cols := by
          rcases List.mem_cons.mp hk with h1 | h1
          · exact absurd h1 hkc
          · exact h1
        obtain ⟨x, hx⟩ := ih r hk' h'
        refine ⟨x, ?_⟩
        simp only [List.zip_cons_cons, List.lookup]
        rw [show (k == c) = false from beq_eq_false_iff_ne.mpr hkc]
        exact hx

theorem lookup_append_right (k : String) (ps qs : List (String × String))
    (h : ∀ q ∈ ps, q.1 ≠ k) :
    List.lookup k (ps ++ qs) = List.lookup k qs := by
  induction ps with
  | nil => rfl
  | cons q ps ih =>
    obtain ⟨a, b⟩ := q
    have ha : a ≠ k := h (a, b) (List.mem_cons_self _ _)
    simp only [List.cons_append, List.lookup]
    rw [show (k == a) = false from beq_eq_false_iff_ne.mpr (fun hk => ha hk.symm)]
    exact ih (fun q hq => h q (List.mem_cons.mpr (Or.inr hq)))

theorem exists_mem_zip (k : String) (cols r : List String) (hk : k ∈ cols)
    (h : cols.length = r.length) : ∃ x, (k, x) ∈ cols.zip r := by
  induction cols generalizing r with
  | nil => simp at hk
  | cons c cols ih =>
    cases r with
    | nil => simp at h
    | cons y r =>
      rcases List.mem_cons.mp hk with h1 | h1
      · exact ⟨y, by simp [List.zip_cons_cons, h1]⟩
      · obtain ⟨x, hx⟩ := ih r h1 (by simpa using h)
        exact ⟨x, List.mem_cons.mpr (Or.inr hx)⟩

theorem zip_filter_map_fst (p : String → Bool) (cols r : List String)
    (h : cols.length = r.length) :
    ((cols.zip r).filter (fun q => p q.1)).map Prod.fst = cols.filter p := by
  induction cols generalizing r with
  | nil => simp
  | cons c cols ih =>
    cases r with
    | nil => simp at h
    | cons y r =>
      have h' : cols.length = r.length := by simpa using h
      by_cases hp : p c
      · simp [List.zip_cons_cons, List.filter_cons, hp, ih r h']
      · simp [List.zip_cons_cons, List.filter_cons, hp, ih r h']

theorem zip_filter_map_snd_of_ne (c : String) (cols r : List String)
    (h : cols.length = r.length) (hc : c ∉ cols) :
    ((cols.zip r).filter (fun q => decide (q.1 ≠ c))).map Prod.snd = r := by
  have hid : (cols.zip r).filter (fun q => decide (q.1 ≠ c)) = cols.zip r := by
    rw [List.filter_eq_self]
    intro q hq
    obtain ⟨a, b⟩ := q
    have ha : a ∈ cols := (List.of_mem_zip hq).1
    simp only [decide_eq_true_eq]
    exact fun hac => hc (hac ▸ ha)
  rw [hid, List.map_snd_zip _ _ (le_of_eq h.symm)]

theorem mem_zipWith (f : List String → String → List String)
    (l1 : List (List String)) (l2 : List String) (x : List String)
    (hx : x ∈ List.zipWith f l1 l2) :
    ∃ a b, a ∈ l1 ∧ b ∈ l2 ∧ x = f a b := by
  induction l1 generalizing l2 with
  | nil => simp at hx
  | cons a l1 ih =>
    cases l2 with
    | nil => simp at hx
    | cons b l2 =>
      simp only [List.zipWith_cons_cons] at hx
      rcases List.mem_cons.mp hx with h1 | h1
      · exact ⟨a, b, List.mem_cons_self _ _, List.mem_cons_self _ _, h1⟩
      · obtain ⟨a', b', ha', hb', hx'⟩ := ih l2 h1
        exact ⟨a', b', List.mem_cons.mpr (Or.inr ha'),
          List.mem_cons.mpr (Or.inr hb'), hx'⟩

theorem zipWith_eq_map (f : List String → String → List String)
    (g : List String → List String) (rows : List (List String)) (vals : List String)
    (h : rows.length = vals.length) (hf : ∀ r ∈ rows, ∀ v, f r v = g r) :
    List.zipWith f rows vals = rows.map g := by
  induction rows generalizing vals with
  | nil => simp
  | cons r rows ih =>
    cases vals with
    | nil => simp at h
    | cons v vals =>
      simp only [List.zipWith_cons_cons, List.map_cons]
      rw [hf r (List.mem_cons_self _ _) v,
        ih vals (by simpa using h)
          (fun r' hr' v' => hf r' (List.mem_cons.mpr (Or.inr hr')) v')]

theorem zipWith_eq_right (f : List String → String → String)
    (rows : List (List String)) (vals : List String)
    (h : rows.length = vals.length) (hf : ∀ r ∈ rows, ∀ v ∈ vals, f r v = v) :
    List.zipWith f rows vals = vals := by
  induction rows generalizing vals with
  | nil => cases vals with
    | nil => simp
    | cons v vals => simp at h
  | cons r rows ih =>
    cases vals with
    | nil => simp at h
    | cons v vals =>
      simp only [List.zipWith_cons_cons]
      rw [hf r (List.mem_cons_self _ _) v (List.mem_cons_self _ _),
        ih vals (by simpa using h)
          (fun r' hr' v' hv' =>
            hf r' (List.mem_cons.mpr (Or.inr hr')) v' (List.mem_cons.mpr (Or.inr hv')))]

/-! ### Properties of the table operations -/

/-- A field text that is free of the CSV separators, hence serializes as
itself. -/
def sepFree (s : String) : Prop := ',' ∉ s.data ∧ '\n' ∉ s.data

instance (s : String) : Decidable (sepFree s) := by
  unfold sepFree
  infer_instance

/-- All labels and cells of the table are separator-free, which holds for
every table obtained from `parseCsv`. -/
def Table.CsvSafe (t : Table) : Prop :=
  (∀ c ∈ t.cols, sepFree c) ∧ ∀ r ∈ t.rows, ∀ x ∈ r, sepFree x

instance (t : Table) : Decidable t.CsvSafe := by
  unfold Table.CsvSafe
  infer_instance

/-- `drop(columns=[c], errors='ignore')` leaves a table without the label
untouched. -/
theorem dropColumn_of_not_mem (t : Table) (c : String) (hwf : t.WF) (hc : c ∉ t.cols) :
    t.dropColumn c = t := by
  obtain ⟨cols, rows⟩ := t
  have hwf' : ∀ r ∈ rows, r.length = cols.length := hwf
  have hc' : c ∉ cols := hc
  unfold Table.dropColumn
  simp only [Table.mk.injEq]
  constructor
  · rw [List.filter_eq_self]
    intro a ha
    simp only [decide_eq_true_eq]
    exact fun hac => hc' (hac ▸ ha)
  · have hmap : rows.map
        (fun r => ((cols.zip r).filter (fun q => decide (q.1 ≠ c))).map Prod.snd) =
        rows.map id := by
      apply List.map_congr_left
      intro r hr
      exact zip_filter_map_snd_of_ne c cols r (hwf' r hr).symm hc'
    simpa using hmap

theorem dropColumn_WF (t : Table) (c : String) (hwf : t.WF) : (t.dropColumn c).WF := by
  intro r' hr'
  obtain ⟨cols, rows⟩ := t
  have hwf' : ∀ r ∈ rows, r.length = cols.length := hwf
  simp only [Table.dropColumn] at hr' ⊢
  obtain ⟨r, hr, rfl⟩ := List.mem_map.mp hr'
  have hlen : cols.length = r.length := (hwf' r hr).symm
  have hfst := zip_filter_map_fst (fun n => decide (n ≠ c)) cols r hlen
  calc (((cols.zip r).filter (fun q => decide (q.1 ≠ c))).map Prod.snd).length
      = ((cols.zip r).filter (fun q => decide (q.1 ≠ c))).length :=
        List.length_map _ _
    _ = (((cols.zip r).filter (fun q => decide (q.1 ≠ c))).map Prod.fst).length :=
        (List.length_map _ _).symm
    _ = (cols.filter (fun n => decide (n ≠ c))).length := by rw [hfst]

theorem setColumn_ok_lengths {t : Table} {c : String} {vals : List String} {r : Table}
    (h : t.setColumn c vals = .ok r) :
    vals.length = t.rows.length ∧ r.rows.length = t.rows.length := by
  unfold Table.setColumn at h
  split_ifs at h with h1 h2 <;>
    (simp only [Except.ok.injEq] at h
     subst h
     refine ⟨h1, ?_⟩
     simp [List.length_zipWith, h1])

theorem setColumn_ok_cols {t : Table} {c : String} {vals : List String} {r : Table}
    (h : t.setColumn c vals = .ok r) :
    r.cols = if c ∈ t.cols then t.cols else t.cols ++ [c] := by
  unfold Table.setColumn at h
  split_ifs at h with h1 h2
  · simp only [Except.ok.injEq] at h
    subst h
    rw [if_pos h2]
  · simp only [Except.ok.injEq] at h
    subst h
    rw [if_neg h2]

theorem setColumn_ok_WF {t : Table} {c : String} {vals : List String} {r : Table}
    (hwf : t.WF) (h : t.setColumn c vals = .ok r) : r.WF := by
  unfold Table.setColumn at h
  split_ifs at h with h1 h2
  · simp only [Except.ok.injEq] at h
    subst h
    intro r' hr'
    obtain ⟨a, b, ha, hb, rfl⟩ := mem_zipWith _ _ _ _ hr'
    have hlen : t.cols.length = a.length := (hwf a ha).symm
    simp [List.length_map, List.length_zip, hlen]
  · simp only [Except.ok.injEq] at h
    subst h
    intro r' hr'
    obtain ⟨a, b, ha, hb, rfl⟩ := mem_zipWith _ _ _ _ hr'
    simp [hwf a ha]

/-- Dropping the assigned column undoes a column assignment: every other
column keeps its label, position and values. -/
theorem dropColumn_setColumn {t : Table} {c : String} {vals : List String} {r : Table}
    (hwf : t.WF) (h : t.setColumn c vals = .ok r) :
    r.dropColumn c = t.dropColumn c := by
  obtain ⟨cols, rows⟩ := t
  have hwf' : ∀ a ∈ rows, a.length = cols.length := hwf
  unfold Table.setColumn at h
  split_ifs at h with h1 h2 <;> simp only [Except.ok.injEq] at h <;> subst h <;>
    unfold Table.dropColumn <;> simp only [Table.mk.injEq]
  · refine ⟨trivial, ?_⟩
    rw [List.map_zipWith]
    apply zipWith_eq_map _ _ rows vals h1.symm
    intro row hrow v
    have hlen : cols.length = row.length := (hwf' row hrow).symm
    rw [zip_map_value cols row _ hlen, overwrite_filter_ne]
  · constructor
    · rw [List.filter_append]
      simp
    · rw [List.map_zipWith]
      apply zipWith_eq_map _ _ rows vals h1.symm
      intro row hrow v
      have hlen : cols.length = row.length := (hwf' row hrow).symm
      rw [List.zip_append hlen, List.filter_append]
      simp

/-- After a column assignment, the assigned column holds exactly the
assigned values. -/
theorem setColumn_column {t : Table} {c : String} {vals : List String} {r : Table}
    (hwf : t.WF) (h : t.setColumn c vals = .ok r) :
    r.column c = vals := by
  obtain ⟨cols, rows⟩ := t
  have hwf' : ∀ a ∈ rows, a.length = cols.length := hwf
  unfold Table.setColumn at h
  split_ifs at h with h1 h2 <;> simp only [Except.ok.injEq] at h <;> subst h <;>
    unfold Table.column
  · rw [List.map_zipWith]
    apply zipWith_eq_right _ rows vals h1.symm
    intro row hrow v hv
    have hlen : cols.length = row.length := (hwf' row hrow).symm
    rw [zip_map_value cols row _ hlen, lookup_map_overwrite, if_pos rfl]
    obtain ⟨x, hx⟩ := lookup_isSome_of_mem c cols row h2 hlen
    rw [hx]
    rfl
  · rw [List.map_zipWith]
    apply zipWith_eq_right _ rows vals h1.symm
    intro row hrow v hv
    have hlen : cols.length = row.length := (hwf' row hrow).symm
    rw [List.zip_append hlen, lookup_append_right]
    · simp [List.lookup]
    · intro q hq
      obtain ⟨a, b⟩ := q
      exact fun hqc => h2 (hqc ▸ (List.of_mem_zip hq).1)

/-- Every row of a column-assignment result contains one of the assigned
values. -/
theorem setColumn_row_mem {t : Table} {c : String} {vals : List String} {r : Table}
    (hwf : t.WF) (h : t.setColumn c vals = .ok r) :
    ∀ row' ∈ r.rows, ∃ v ∈ vals, v ∈ row' := by
  obtain ⟨cols, rows⟩ := t
  have hwf' : ∀ a ∈ rows, a.length = cols.length := hwf
  unfold Table.setColumn at h
  split_ifs at h with h1 h2 <;> simp only [Except.ok.injEq] at h <;> subst h <;>
    intro row' hrow'
  · obtain ⟨row, v, hrow, hv, rfl⟩ := mem_zipWith _ _ _ _ hrow'
    refine ⟨v, hv, ?_⟩
    have hlen : cols.length = row.length := (hwf' row hrow).symm
    obtain ⟨x, hx⟩ := exists_mem_zip c cols row h2 hlen
    exact List.mem_map.mpr ⟨(c, x), hx, by simp⟩
  · obtain ⟨row, v, hrow, hv, rfl⟩ := mem_zipWith _ _ _ _ hrow'
    exact ⟨v, hv, by simp⟩

/-- A column assignment with separator-free label and values keeps the table
separator-free. -/
theorem setColumn_CsvSafe {t : Table} {c : String} {vals : List String} {r : Table}
    (hsafe : t.CsvSafe) (hc : sepFree c) (hvals : ∀ v ∈ vals, sepFree v)
    (h : t.setColumn c vals = .ok r) : r.CsvSafe := by
  obtain ⟨cols, rows⟩ := t
  obtain ⟨hcols, hcells⟩ := hsafe
  unfold Table.setColumn at h
  split_ifs at h with h1 h2 <;> simp only [Except.ok.injEq] at h <;> subst h <;>
    constructor
  · exact hcols
  · intro row' hrow' x hx
    obtain ⟨row, v, hrow, hv, rfl⟩ := mem_zipWith _ _ _ _ hrow'
    obtain ⟨q, hq, rfl⟩ := List.mem_map.mp hx
    by_cases hqc : q.1 = c
    · simpa [hqc] using hvals v hv
    · obtain ⟨a, b⟩ := q
      simp only at hqc ⊢
      rw [if_neg hqc]
      exact hcells row hrow b (List.of_mem_zip hq).2
  · intro n hn
    rcases List.mem_append.mp hn with hn1 | hn1
    · exact hcols n hn1
    · rw [List.mem_singleton.mp hn1]; exact hc
  · intro row' hrow' x hx
    obtain ⟨row, v, hrow, hv, rfl⟩ := mem_zipWith _ _ _ _ hrow'
    rcases List.mem_append.mp hx with hx1 | hx1
    · exact hcells row hrow x hx1
    · rw [List.mem_singleton.mp hx1]; exact hvals v hv

/-! ### Properties of CSV parsing and serialization -/

theorem mem_parseLines {cs l : List Char} (h : l ∈ parseLines cs) :
    l ≠ [] ∧ '\n' ∉ l := by
  unfold parseLines at h
  have h1 := List.mem_filter.mp h
  exact ⟨by simpa using h1.2, not_mem_of_mem_splitSep _ _ _ h1.1⟩

theorem map_mk_map_data (l : List String) : (l.map String.data).map String.mk = l := by
  rw [List.map_map]
  have hid : (String.mk ∘ String.data) = id := funext (fun s => by cases s; rfl)
  rw [hid, List.map_id]

theorem map_data_map_mk (l : List (List Char)) :
    (l.map String.mk).map String.data = l := by
  rw [List.map_map]
  have hid : (String.data ∘ String.mk) = id := funext (fun cs => rfl)
  rw [hid, List.map_id]

theorem parseRows_length {nc : Nat} {ls : List (List Char)} {rows : List (List String)}
    (h : parseRows nc ls = some rows) : ∀ r ∈ rows, r.length = nc := by
  induction ls generalizing rows with
  | nil =>
    simp only [parseRows, Option.some.injEq] at h
    subst h; simp
  | cons line rest ih =>
    simp only [parseRows] at h
    split_ifs at h with hlen
    · cases hrec : parseRows nc rest with
      | none => rw [hrec] at h; exact Option.noConfusion h
      | some rs =>
        rw [hrec] at h
        simp only [Option.some.injEq] at h
        subst h
        intro r hr
        rcases List.mem_cons.mp hr with h1 | h1
        · subst h1; simpa using hlen
        · exact ih hrec r h1

theorem parseRows_render {nc : Nat} {ls : List (List Char)} {rows : List (List String)}
    (h : parseRows nc ls = some rows) : rows.map rowChars = ls := by
  induction ls generalizing rows with
  | nil =>
    simp only [parseRows, Option.some.injEq] at h
    subst h; rfl
  | cons line rest ih =>
    simp only [parseRows] at h
    split_ifs at h with hlen
    · cases hrec : parseRows nc rest with
      | none => rw [hrec] at h; exact Option.noConfusion h
      | some rs =>
        rw [hrec] at h
        simp only [Option.some.injEq] at h
        subst h
        simp only [List.map_cons]
        rw [ih hrec]
        unfold rowChars
        rw [map_data_map_mk, joinSep_splitSep]

theorem parseRows_safe {nc : Nat} {ls : List (List Char)} {rows : List (List String)}
    (h : parseRows nc ls = some rows) (hls : ∀ l ∈ ls, '\n' ∉ l) :
    ∀ r ∈ rows, ∀ x ∈ r, sepFree x := by
  induction ls generalizing rows with
  | nil =>
    simp only [parseRows, Option.some.injEq] at h
    subst h; simp
  | cons line rest ih =>
    simp only [parseRows] at h
    split_ifs at h with hlen
    · cases hrec : parseRows nc rest with
      | none => rw [hrec] at h; exact Option.noConfusion h
      | some rs =>
        rw [hrec] at h
        simp only [Option.some.injEq] at h
        subst h
        intro r hr x hx
        rcases List.mem_cons.mp hr with h1 | h1
        · subst h1
          obtain ⟨f, hf, rfl⟩ := List.mem_map.mp hx
          constructor
          · exact not_mem_of_mem_splitSep ',' line f hf
          · intro hmem
            exact hls line (List.mem_cons_self _ _)
              (mem_of_mem_splitSep ',' line f hf '\n' hmem)
        · exact ih hrec (fun l hl => hls l (List.mem_cons.mpr (Or.inr hl))) r h1 x hx

/-- Every table produced by `parseCsv` is well-formed, separator-free, and
renders its header and rows back to the nonblank lines it was parsed from. -/
theorem parseCsv_ok {s : String} {t : Table} (h : parseCsv s = .ok t) :
    t.WF ∧ t.CsvSafe ∧ rowChars t.cols ≠ [] ∧ ∀ r ∈ t.rows, rowChars r ≠ [] := by
  unfold parseCsv at h
  cases hl : parseLines s.data with
  | nil => rw [hl] at h; exact Except.noConfusion h
  | cons header rest =>
    rw [hl] at h
    replace h :
        (match parseRows ((splitSep ',' header).map String.mk).length rest with
          | some rows =>
            Except.ok { cols := (splitSep ',' header).map String.mk, rows := rows }
          | none => Except.error "Error tokenizing data") = Except.ok t := h
    cases hr : parseRows ((splitSep ',' header).map String.mk).length rest with
    | none => rw [hr] at h; exact Except.noConfusion h
    | some rows =>
      rw [hr] at h
      simp only [Except.ok.injEq] at h
      subst h
      have hhead := mem_parseLines (hl ▸ List.mem_cons_self header rest)
      have hrest : ∀ l ∈ rest, l ≠ [] ∧ '\n' ∉ l := fun l hl' =>
        mem_parseLines (hl ▸ List.mem_cons.mpr (Or.inr hl'))
      have hrender : rowChars ((splitSep ',' header).map String.mk) = header := by
        unfold rowChars
        rw [map_data_map_mk, joinSep_splitSep]
      refine ⟨?_, ⟨?_, ?_⟩, ?_, ?_⟩
      · intro r hrw
        simpa using parseRows_length hr r hrw
      · intro n hn
        obtain ⟨f, hf, rfl⟩ := List.mem_map.mp hn
        constructor
        · exact not_mem_of_mem_splitSep ',' header f hf
        · intro hmem
          exact hhead.2 (mem_of_mem_splitSep ',' header f hf '\n' hmem)
      · exact parseRows_safe hr (fun l hl' => (hrest l hl').2)
      · rw [hrender]
        exact hhead.1
      · intro r hrw
        have hmeml : rowChars r ∈ rows.map rowChars := List.mem_map_of_mem rowChars hrw
        rw [parseRows_render hr] at hmeml
        exact (hrest _ hmeml).1

theorem splitSep_renderLines (ls : List (List Char)) (h : ∀ l ∈ ls, '\n' ∉ l) :
    splitSep '\n' (renderLines ls) = ls ++ [[]] := by
  induction ls with
  | nil => simp [renderLines, splitSep]
  | cons l ls ih =>
    have hstep : renderLines (l :: ls) = l ++ '\n' :: renderLines ls := rfl
    rw [hstep, splitSep_append _ _ _ (h l (List.mem_cons_self _ _)),
      ih (fun l' hl' => h l' (List.mem_cons.mpr (Or.inr hl')))]
    rfl

theorem parseLines_renderLines (ls : List (List Char))
    (h : ∀ l ∈ ls, '\n' ∉ l) (hne : ∀ l ∈ ls, l ≠ []) :
    parseLines (renderLines ls) = ls := by
  unfold parseLines
  rw [splitSep_renderLines ls h, List.filter_append]
  have h1 : ls.filter (fun l => decide (l ≠ [])) = ls :=
    List.filter_eq_self.mpr (fun a ha => by simpa using hne a ha)
  rw [h1]
  simp

theorem parseRows_of_render (nc : Nat) (rows : List (List String))
    (hnc : 0 < nc) (hlen : ∀ r ∈ rows, r.length = nc)
    (hfree : ∀ r ∈ rows, ∀ x ∈ r, ',' ∉ x.data) :
    parseRows nc (rows.map rowChars) = some rows := by
  induction rows with
  | nil => rfl
  | cons r rows ih =>
    simp only [List.map_cons, parseRows]
    have hrne : r ≠ [] := by
      intro he
      have h0 := hlen r (List.mem_cons_self _ _)
      rw [he] at h0
      simp at h0
      omega
    have hmapne : r.map String.data ≠ [] := by simpa using hrne
    have hsplit : splitSep ',' (rowChars r) = r.map String.data := by
      unfold rowChars
      refine splitSep_joinSep ',' _ hmapne ?_
      intro f hf
      obtain ⟨x, hx, rfl⟩ := List.mem_map.mp hf
      exact hfree r (List.mem_cons_self _ _) x hx
    rw [hsplit, if_pos (by simpa using hlen r (List.mem_cons_self _ _))]
    rw [ih (fun r' hr' => hlen r' (List.mem_cons.mpr (Or.inr hr')))
      (fun r' hr' x hx => hfree r' (List.mem_cons.mpr (Or.inr hr')) x hx)]
    show some (((r.map String.data).map String.mk) :: rows) = some (r :: rows)
    rw [map_mk_map_data r]

/-- Serializing a well-formed separator-free table with nonblank header and
row lines, then parsing the text back, recovers the table exactly. -/
theorem parseCsv_toCsvString (t : Table) (hwf : t.WF) (hsafe : t.CsvSafe)
    (hhdr : rowChars t.cols ≠ []) (hrows : ∀ r ∈ t.rows, rowChars r ≠ []) :
    parseCsv (toCsvString t) = .ok t := by
  obtain ⟨cols, rows⟩ := t
  obtain ⟨hcols, hcells⟩ := hsafe
  have hwf' : ∀ r ∈ rows, r.length = cols.length := hwf
  have hhdr' : rowChars cols ≠ [] := hhdr
  have hrows' : ∀ r ∈ rows, rowChars r ≠ [] := hrows
  have hcolsne : cols ≠ [] := by
    intro he
    apply hhdr'
    rw [he]
    rfl
  have hlinefree : ∀ l ∈ rowChars cols :: rows.map rowChars, '\n' ∉ l := by
    intro l hl
    rcases List.mem_cons.mp hl with h1 | h1
    · subst h1
      unfold rowChars
      apply not_mem_joinSep _ _ (by decide)
      intro f hf
      obtain ⟨x, hx, rfl⟩ := List.mem_map.mp hf
      exact (hcols x hx).2
    · obtain ⟨r, hr, rfl⟩ := List.mem_map.mp h1
      unfold rowChars
      apply not_mem_joinSep _ _ (by decide)
      intro f hf
      obtain ⟨x, hx, rfl⟩ := List.mem_map.mp hf
      exact (hcells r hr x hx).2
  have hlinene : ∀ l ∈ rowChars cols :: rows.map rowChars, l ≠ [] := by
    intro l hl
    rcases List.mem_cons.mp hl with h1 | h1
    · subst h1; exact hhdr'
    · obtain ⟨r, hr, rfl⟩ := List.mem_map.mp h1
      exact hrows' r hr
  have hsplith : (splitSep ',' (rowChars cols)).map String.mk = cols := by
    unfold rowChars
    rw [splitSep_joinSep ',' _ (by simpa using hcolsne)
      (fun f hf => by
        obtain ⟨x, hx, rfl⟩ := List.mem_map.mp hf
        exact (hcols x hx).1)]
    exact map_mk_map_data cols
  unfold parseCsv toCsvString
  rw [show (String.mk (renderLines (rowChars cols :: rows.map rowChars))).data
      = renderLines (rowChars cols :: rows.map rowChars) from rfl]
  rw [parseLines_renderLines _ hlinefree hlinene]
  show (match parseRows ((splitSep ',' (rowChars cols)).map String.mk).length
      (rows.map rowChars) with
    | some rows' =>
      Except.ok (Table.mk ((splitSep ',' (rowChars cols)).map String.mk) rows')
    | none => Except.error "Error tokenizing data") =
    Except.ok (Table.mk cols rows)
  rw [hsplith]
  rw [parseRows_of_render cols.length rows (List.length_pos.mpr hcolsne) hwf'
    (fun r hr x hx => (hcells r hr x hx).1)]

deriving instance DecidableEq for Except

/-! ### Running the script: basic facts -/

theorem setColumn_isOk {t : Table} {c : String} {vals : List String}
    (h : vals.length = t.rows.length) : ∃ r, t.setColumn c vals = .ok r := by
  unfold Table.setColumn
  rw [if_pos h]
  by_cases hc : c ∈ t.cols
  · rw [if_pos hc]; exact ⟨_, rfl⟩
  · rw [if_neg hc]; exact ⟨_, rfl⟩

theorem runPredict_eq_of_ok {data : Table} {model : Predictor} {preds : List Int}
    {r : Table} (hm : model (data.dropColumn "AQI") = .ok preds)
    (hs : data.setColumn "Predicted_AQI" (preds.map intStr) = .ok r) :
    runPredict data model = .predicted r (toCsvString r) := by
  simp only [runPredict, hm, hs]

theorem runPredict_eq_of_error {data : Table} {model : Predictor} {e : String}
    (hm : model (data.dropColumn "AQI") = .error e) :
    runPredict data model = .predictionFailed ("Prediction failed: " ++ e) := by
  simp only [runPredict, hm]

/-- Inversion of a successful prediction block. -/
theorem runPredict_predicted {data : Table} {model : Predictor} {result : Table}
    {csv : String} (h : runPredict data model = .predicted result csv) :
    ∃ preds, model (data.dropColumn "AQI") = .ok preds ∧
      data.setColumn "Predicted_AQI" (preds.map intStr) = .ok result ∧
      csv = toCsvString result := by
  unfold runPredict at h
  cases hm : model (data.dropColumn "AQI") with
  | error e =>
    rw [hm] at h
    exact Outcome.noConfusion h
  | ok preds =>
    rw [hm] at h
    replace h :
        (match data.setColumn "Predicted_AQI" (preds.map intStr) with
          | .error e => Outcome.predictionFailed ("Prediction failed: " ++ e)
          | .ok result => Outcome.predicted result (toCsvString result)) =
          Outcome.predicted result csv := h
    cases hs : data.setColumn "Predicted_AQI" (preds.map intStr) with
    | error e =>
      rw [hs] at h
      exact Outcome.noConfusion h
    | ok r =>
      rw [hs] at h
      replace h : Outcome.predicted r (toCsvString r) = Outcome.predicted result csv := h
      injection h with h1 h2
      subst h1
      exact ⟨preds, rfl, hs, h2.symm⟩

theorem runApp_parse_error {s e : String} {fs : ModelArtifact} {b : Bool}
    (h : parseCsv s = .error e) : runApp (some s) fs b = .crash e := by
  simp only [runApp, h]

theorem runApp_model_absent {s : String} {data : Table} {b : Bool}
    (h : parseCsv s = .ok data) :
    runApp (some s) .absent b =
      .halted "Model file not found! Please add 'air_quality_model.pkl'." := by
  simp only [runApp, h, loadModel]

theorem runApp_model_corrupt {s m : String} {data : Table} {b : Bool}
    (h : parseCsv s = .ok data) :
    runApp (some s) (.corrupt m) b = .crash m := by
  simp only [runApp, h, loadModel]

theorem runApp_predict {s : String} {data : Table} {p : Predictor}
    (h : parseCsv s = .ok data) :
    runApp (some s) (.valid p) true = runPredict data p := by
  simp only [runApp, h, loadModel, if_true]

/-! ### The specification's claims -/

/-- C1: for every successful prediction, the ResultTable has exactly as many
rows as the input FeatureTable, and its column set equals the input's column
set united with `Predicted_AQI` — whether or not the input contained an
`AQI` column. -/
theorem C1_result_shape (data : Table) (model : Predictor) (result : Table)
    (csv : String) (h : runPredict data model = .predicted result csv) :
    result.rows.length = data.rows.length ∧
      ∀ c, c ∈ result.cols ↔ (c ∈ data.cols ∨ c = "Predicted_AQI") := by
  obtain ⟨preds, hm, hs, hcsv⟩ := runPredict_predicted h
  refine ⟨(setColumn_ok_lengths hs).2, ?_⟩
  intro c
  rw [setColumn_ok_cols hs]
  by_cases hmem : "Predicted_AQI" ∈ data.cols
  · rw [if_pos hmem]
    constructor
    · exact fun hc => Or.inl hc
    · rintro (hc | rfl)
      · exact hc
      · exact hmem
  · rw [if_neg hmem]
    simp [List.mem_append]

/-- Witness for C1 on the specification's scenario input. -/
theorem C1_result_shape_witness :
    scenarioResult.rows.length = scenarioTable.rows.length ∧
      ∀ c, c ∈ scenarioResult.cols ↔ (c ∈ scenarioTable.cols ∨ c = "Predicted_AQI") :=
  C1_result_shape scenarioTable sumPredictor scenarioResult
    (toCsvString scenarioResult) (by decide)

/-- C2: `predict` drops exactly the `AQI` column (tolerating its absence)
from the features, invokes the predictor on that feature table, appends the
output as the new last column `Predicted_AQI` so that every original column
— including `AQI` — appears unchanged, and on the specification's scenario
CSV with the `PM2.5 + PM10` predictor produces exactly the stated rows. -/
theorem C2_predict_behavior (data : Table) (model : Predictor) (preds : List Int)
    (hwf : data.WF) (hP : "Predicted_AQI" ∉ data.cols)
    (hm : model (data.dropColumn "AQI") = .ok preds)
    (hlen : preds.length = data.rows.length) :
    (∃ result, runPredict data model = .predicted result (toCsvString result) ∧
      result.cols = data.cols ++ ["Predicted_AQI"] ∧
      result.dropColumn "Predicted_AQI" = data ∧
      result.column "Predicted_AQI" = preds.map intStr) ∧
    runPredict scenarioTable sumPredictor =
      .predicted scenarioResult (toCsvString scenarioResult) := by
  constructor
  · obtain ⟨r, hs⟩ :=
      @setColumn_isOk data "Predicted_AQI" (preds.map intStr) (by simpa using hlen)
    refine ⟨r, runPredict_eq_of_ok hm hs, ?_, ?_, setColumn_column hwf hs⟩
    · rw [setColumn_ok_cols hs, if_neg hP]
    · rw [dropColumn_setColumn hwf hs]
      exact dropColumn_of_not_mem data _ hwf hP
  · decide

/-- Witness for C2 on the specification's scenario input. -/
theorem C2_predict_behavior_witness :
    (∃ result, runPredict scenarioTable sumPredictor =
        .predicted result (toCsvString result) ∧
      result.cols = scenarioTable.cols ++ ["Predicted_AQI"] ∧
      result.dropColumn "Predicted_AQI" = scenarioTable ∧
      result.column "Predicted_AQI" = [70, 110].map intStr) ∧
    runPredict scenarioTable sumPredictor =
      .predicted scenarioResult (toCsvString scenarioResult) :=
  C2_predict_behavior scenarioTable sumPredictor [70, 110] (by decide) (by decide)
    (by decide) (by decide)

/-- C3: if the predictor raises, the script reports the inline message
`Prediction failed: <underlying message>` via `st.error` in the prediction
block's `except` arm, the exception does not escape the script, and no
ResultTable is produced — the table is not augmented at all. -/
theorem C3_prediction_failure (s e : String) (data : Table) (p : Predictor)
    (hparse : parseCsv s = .ok data)
    (hfail : p (data.dropColumn "AQI") = .error e) :
    runApp (some s) (.valid p) true =
        .predictionFailed ("Prediction failed: " ++ e) ∧
      (∀ m, runApp (some s) (.valid p) true ≠ .crash m) ∧
      ∀ result csv, runApp (some s) (.valid p) true ≠ .predicted result csv := by
  have h1 : runApp (some s) (.valid p) true = runPredict data p := runApp_predict hparse
  have h2 := runPredict_eq_of_error hfail
  refine ⟨h1.trans h2, ?_, ?_⟩
  · intro m hcontra
    rw [h1, h2] at hcontra
    exact Outcome.noConfusion hcontra
  · intro result csv hcontra
    rw [h1, h2] at hcontra
    exact Outcome.noConfusion hcontra

/-- Witness for C3: a predictor raising "feature mismatch" on the scenario
upload. -/
theorem C3_prediction_failure_witness :
    runApp (some scenarioCsv) (.valid (failingPredictor "feature mismatch")) true =
        .predictionFailed ("Prediction failed: " ++ "feature mismatch") ∧
      (∀ m, runApp (some scenarioCsv) (.valid (failingPredictor "feature mismatch")) true ≠
        .crash m) ∧
      ∀ result csv,
        runApp (some scenarioCsv) (.valid (failingPredictor "feature mismatch")) true ≠
          .predicted result csv :=
  C3_prediction_failure scenarioCsv "feature mismatch" scenarioTable
    (failingPredictor "feature mismatch") (by decide) (by decide)

/-- C4 counterexample: the upload `"A\n1,2\n"` (a data line with two fields
under a one-column header) is not well-formed delimited text, and the script
run ends in `Outcome.crash`: the parse failure escapes the script uncaught,
instead of being caught and converted to an inline message. -/
theorem C4_counterexample :
    runApp (some "A\n1,2\n") (.valid sumPredictor) true =
      .crash "Error tokenizing data" := by
  decide

/-- C4 (amended): for every upload that is not well-formed delimited text,
`pd.read_csv` fails, no FeatureTable is produced and no prediction happens —
but the parse failure is NOT caught by the app code: `read_csv` sits outside
every `try`/`except`, so the exception propagates out of the script uncaught
(only the hosting framework can still display it). -/
theorem C4_parse_failure_uncaught (s e : String) (fs : ModelArtifact) (b : Bool)
    (h : parseCsv s = .error e) :
    runApp (some s) fs b = .crash e ∧
      ∀ result csv, runApp (some s) fs b ≠ .predicted result csv := by
  refine ⟨runApp_parse_error h, ?_⟩
  intro result csv hcontra
  rw [runApp_parse_error h] at hcontra
  exact Outcome.noConfusion hcontra

/-- Witness for the amended C4 on a concrete malformed upload. -/
theorem C4_parse_failure_uncaught_witness :
    runApp (some "A\n1,2\n") .absent false = .crash "Error tokenizing data" ∧
      ∀ result csv, runApp (some "A\n1,2\n") .absent false ≠ .predicted result csv :=
  C4_parse_failure_uncaught "A\n1,2\n" "Error tokenizing data" .absent false (by decide)

/-- C5 counterexample: with a parseable upload and a model artifact that
exists but fails to deserialize, the script run ends in `Outcome.crash`
carrying the deserialization message: the failure is not reported inline,
because only `FileNotFoundError` is caught around `joblib.load`. -/
theorem C5_counterexample :
    runApp (some scenarioCsv) (.corrupt "invalid load key, 'x'.") true =
      .crash "invalid load key, 'x'." := by
  decide

/-- C5 (amended): when the model artifact exists but fails to deserialize,
the failure escapes the script as an uncaught exception (the `except` arm
catches only `FileNotFoundError`); no prediction is ever attempted. -/
theorem C5_corrupt_model_uncaught (s m : String) (data : Table) (b : Bool)
    (h : parseCsv s = .ok data) :
    runApp (some s) (.corrupt m) b = .crash m ∧
      ∀ result csv, runApp (some s) (.corrupt m) b ≠ .predicted result csv := by
  refine ⟨runApp_model_corrupt h, ?_⟩
  intro result csv hcontra
  rw [runApp_model_corrupt h] at hcontra
  exact Outcome.noConfusion hcontra

/-- Witness for the amended C5 on the scenario upload. -/
theorem C5_corrupt_model_uncaught_witness :
    runApp (some scenarioCsv) (.corrupt "invalid load key, 'x'.") true =
        .crash "invalid load key, 'x'." ∧
      ∀ result csv,
        runApp (some scenarioCsv) (.corrupt "invalid load key, 'x'.") true ≠
          .predicted result csv :=
  C5_corrupt_model_uncaught scenarioCsv "invalid load key, 'x'." scenarioTable true
    (by decide)

/-- C6: when the model artifact path does not resolve, the script shows the
clear inline message `Model file not found! Please add
'air_quality_model.pkl'.` and stops (`st.error` + `st.stop`); it neither
crashes nor attempts any prediction with the missing model. -/
theorem C6_model_missing (s : String) (data : Table) (b : Bool)
    (h : parseCsv s = .ok data) :
    runApp (some s) .absent b =
        .halted "Model file not found! Please add 'air_quality_model.pkl'." ∧
      (∀ result csv, runApp (some s) .absent b ≠ .predicted result csv) ∧
      (∀ m, runApp (some s) .absent b ≠ .predictionFailed m) ∧
      ∀ m, runApp (some s) .absent b ≠ .crash m := by
  have h0 := @runApp_model_absent s data b h
  refine ⟨h0, ?_, ?_, ?_⟩
  · intro result csv hcontra
    rw [h0] at hcontra
    exact Outcome.noConfusion hcontra
  · intro m hcontra
    rw [h0] at hcontra
    exact Outcome.noConfusion hcontra
  · intro m hcontra
    rw [h0] at hcontra
    exact Outcome.noConfusion hcontra

/-- Witness for C6 on the scenario upload. -/
theorem C6_model_missing_witness :
    runApp (some scenarioCsv) .absent true =
        .halted "Model file not found! Please add 'air_quality_model.pkl'." ∧
      (∀ result csv, runApp (some scenarioCsv) .absent true ≠ .predicted result csv) ∧
      (∀ m, runApp (some scenarioCsv) .absent true ≠ .predictionFailed m) ∧
      ∀ m, runApp (some scenarioCsv) .absent true ≠ .crash m :=
  C6_model_missing scenarioCsv scenarioTable true (by decide)

/-- The input of the C7 counterexample: a valid CSV that already contains a
`Predicted_AQI` column. -/
def c7Table : Table := { cols := ["Predicted_AQI", "PM"], rows := [["5", "2"]] }

/-- Its ResultTable: the pre-existing `Predicted_AQI` value 5 is overwritten
by the prediction 7. -/
def c7Result : Table := { cols := ["Predicted_AQI", "PM"], rows := [["7", "2"]] }

/-- C7 counterexample: for the valid upload `"Predicted_AQI,PM\n5,2\n"` the
round trip succeeds, but the round-tripped ResultTable's non-prediction
columns (only `PM`) do not equal the original input's columns and values
(`Predicted_AQI` and `PM`): the claim as stated fails on inputs that already
contain a `Predicted_AQI` column. -/
theorem C7_counterexample :
    parseCsv "Predicted_AQI,PM\n5,2\n" = .ok c7Table ∧
      runPredict c7Table sumPredictor = .predicted c7Result (toCsvString c7Result) ∧
      parseCsv (toCsvString c7Result) = .ok c7Result ∧
      c7Result.dropColumn "Predicted_AQI" ≠ c7Table := by
  exact ⟨by decide, by decide, by decide, by decide⟩

/-- C7 (amended): for every parsed upload and successful prediction, parsing
the exported CSV back recovers the ResultTable exactly, and its
non-prediction columns equal the input's non-prediction columns and values;
in particular, whenever the input has no `Predicted_AQI` column of its own,
they equal the input exactly. -/
theorem C7_roundtrip (s : String) (p : Predictor) (data result : Table) (out : String)
    (hparse : parseCsv s = .ok data)
    (hrun : runPredict data p = .predicted result out) :
    parseCsv out = .ok result ∧
      result.dropColumn "Predicted_AQI" = data.dropColumn "Predicted_AQI" ∧
      ("Predicted_AQI" ∉ data.cols → result.dropColumn "Predicted_AQI" = data) ∧
      exportCsv result = out.toUTF8 := by
  obtain ⟨hwf, hsafe, hhdr, hrows⟩ := parseCsv_ok hparse
  obtain ⟨preds, hm, hs, rfl⟩ := runPredict_predicted hrun
  have hrwf : result.WF := setColumn_ok_WF hwf hs
  have hPfree : sepFree "Predicted_AQI" := by decide
  have hvalsfree : ∀ v ∈ preds.map intStr, sepFree v := by
    intro v hv
    obtain ⟨i, hi, rfl⟩ := List.mem_map.mp hv
    constructor
    · intro hc
      exact (intChars_sep i ',' hc).1 rfl
    · intro hc
      exact (intChars_sep i '\n' hc).2 rfl
  have hrsafe : result.CsvSafe := setColumn_CsvSafe hsafe hPfree hvalsfree hs
  have hrhdr : rowChars result.cols ≠ [] := by
    rw [setColumn_ok_cols hs]
    by_cases hmem : "Predicted_AQI" ∈ data.cols
    · rw [if_pos hmem]
      exact hhdr
    · rw [if_neg hmem]
      apply joinSep_ne_nil ',' _ (String.data "Predicted_AQI")
      · exact List.mem_map_of_mem _ (by simp)
      · decide
  have hrrows : ∀ r ∈ result.rows, rowChars r ≠ [] := by
    intro r hr
    obtain ⟨v, hv, hvr⟩ := setColumn_row_mem hwf hs r hr
    apply joinSep_ne_nil ',' _ v.data (List.mem_map_of_mem _ hvr)
    obtain ⟨i, hi, rfl⟩ := List.mem_map.mp hv
    exact intChars_ne_nil i
  refine ⟨parseCsv_toCsvString result hrwf hrsafe hrhdr hrrows,
    dropColumn_setColumn hwf hs, ?_, rfl⟩
  intro hmem
  rw [dropColumn_setColumn hwf hs]
  exact dropColumn_of_not_mem data _ hwf hmem

/-- Witness for the amended C7 on the specification's scenario. -/
theorem C7_roundtrip_witness :
    parseCsv (toCsvString scenarioResult) = .ok scenarioResult ∧
      scenarioResult.dropColumn "Predicted_AQI" =
        scenarioTable.dropColumn "Predicted_AQI" ∧
      ("Predicted_AQI" ∉ scenarioTable.cols →
        scenarioResult.dropColumn "Predicted_AQI" = scenarioTable) ∧
      exportCsv scenarioResult = (toCsvString scenarioResult).toUTF8 :=
  C7_roundtrip scenarioCsv sumPredictor scenarioTable scenarioResult
    (toCsvString scenarioResult) (by decide) (by decide)

/-- C8: prediction is deterministic — two invocations of the prediction
block with the same table and predictor yield identical ResultTable contents
(and identical download CSV); the script holds no hidden state between the
two runs. -/
theorem C8_deterministic (data : Table) (p : Predictor) (r1 r2 : Table)
    (c1 c2 : String) (h1 : runPredict data p = .predicted r1 c1)
    (h2 : runPredict data p = .predicted r2 c2) :
    r1 = r2 ∧ c1 = c2 := by
  rw [h1] at h2
  injection h2 with ha hb
  exact ⟨ha, hb⟩

/-- Witness for C8: two runs on the scenario input. -/
theorem C8_deterministic_witness : scenarioResult = scenarioResult ∧
    toCsvString scenarioResult = toCsvString scenarioResult :=
  C8_deterministic scenarioTable sumPredictor scenarioResult scenarioResult
    (toCsvString scenarioResult) (toCsvString scenarioResult) (by decide) (by decide)

/-- C9: `exportCsv` is the UTF-8 encoding of the serialized CSV text, whose
nonblank lines are exactly a header line holding the column labels in table
order, followed by one line per row holding exactly that row's cells — so a
header row is present, column order is preserved, and no row-index column is
emitted. -/
theorem C9_export_csv (t : Table) (hsafe : t.CsvSafe)
    (hhdr : rowChars t.cols ≠ []) (hrows : ∀ r ∈ t.rows, rowChars r ≠ []) :
    parseLines (toCsvString t).data = rowChars t.cols :: t.rows.map rowChars ∧
      exportCsv t = (toCsvString t).toUTF8 := by
  obtain ⟨hcols, hcells⟩ := hsafe
  have hlinefree : ∀ l ∈ rowChars t.cols :: t.rows.map rowChars, '\n' ∉ l := by
    intro l hl
    rcases List.mem_cons.mp hl with h1 | h1
    · subst h1
      unfold rowChars
      apply not_mem_joinSep _ _ (by decide)
      intro f hf
      obtain ⟨x, hx, rfl⟩ := List.mem_map.mp hf
      exact (hcols x hx).2
    · obtain ⟨r, hr, rfl⟩ := List.mem_map.mp h1
      unfold rowChars
      apply not_mem_joinSep _ _ (by decide)
      intro f hf
      obtain ⟨x, hx, rfl⟩ := List.mem_map.mp hf
      exact (hcells r hr x hx).2
  have hlinene : ∀ l ∈ rowChars t.cols :: t.rows.map rowChars, l ≠ [] := by
    intro l hl
    rcases List.mem_cons.mp hl with h1 | h1
    · subst h1
      exact hhdr
    · obtain ⟨r, hr, rfl⟩ := List.mem_map.mp h1
      exact hrows r hr
  constructor
  · show parseLines (renderLines (rowChars t.cols :: t.rows.map rowChars)) = _
    exact parseLines_renderLines _ hlinefree hlinene
  · rfl

/-- Witness for C9 on the scenario's ResultTable. -/
theorem C9_export_csv_witness :
    parseLines (toCsvString scenarioResult).data =
        rowChars scenarioResult.cols :: scenarioResult.rows.map rowChars ∧
      exportCsv scenarioResult = (toCsvString scenarioResult).toUTF8 :=
  C9_export_csv scenarioResult (by decide) (by decide) (by decide)

/-- C10: when the upload already contains a `Predicted_AQI` column, a
successful prediction silently overwrites that column's values in place with
the predictor's output — the user's original `Predicted_AQI` data is lost —
while the column list and every other column's values stay unchanged. -/
theorem C10_overwrite (data : Table) (model : Predictor) (preds : List Int)
    (hwf : data.WF) (hP : "Predicted_AQI" ∈ data.cols)
    (hm : model (data.dropColumn "AQI") = .ok preds)
    (hlen : preds.length = data.rows.length) :
    ∃ result, runPredict data model = .predicted result (toCsvString result) ∧
      result.cols = data.cols ∧
      result.column "Predicted_AQI" = preds.map intStr ∧
      result.dropColumn "Predicted_AQI" = data.dropColumn "Predicted_AQI" := by
  obtain ⟨r, hs⟩ :=
    @setColumn_isOk data "Predicted_AQI" (preds.map intStr) (by simpa using hlen)
  refine ⟨r, runPredict_eq_of_ok hm hs, ?_, setColumn_column hwf hs,
    dropColumn_setColumn hwf hs⟩
  rw [setColumn_ok_cols hs, if_pos hP]

/-- Witness for C10 on a table whose `Predicted_AQI` value 5 is overwritten
by the prediction 7. -/
theorem C10_overwrite_witness :
    ∃ result, runPredict c7Table sumPredictor = .predicted result (toCsvString result) ∧
      result.cols = c7Table.cols ∧
      result.column "Predicted_AQI" = [7].map intStr ∧
      result.dropColumn "Predicted_AQI" = c7Table.dropColumn "Predicted_AQI" :=
  C10_overwrite c7Table sumPredictor [7] (by decide) (by decide) (by decide) (by decide)
